import Mathlib

/-!
Verification development for the note-sequencing and MIDI-export core of the
la-musicaaaa repository.  JavaScript numbers are modelled as rationals where
only field arithmetic occurs (durations, times, byte values) and as reals
where the code applies transcendental functions (Math.log2, Math.pow).
`Math.round(x)` is `⌊x + 1/2⌋`, JS `%` on integers is the truncated
remainder `Int.tmod`, and `Math.floor` of an integer quotient `m / 12` is
Euclidean division by the positive constant 12.
-/

/-- Model of JS Math.round on a real argument: floor of x + 1/2. -/
noncomputable def jsRound (x : ℝ) : ℤ := ⌊x + 1/2⌋

/-- Model of JS Math.round on a rational argument (same function, exact inputs). -/
def jsRoundQ (x : ℚ) : ℤ := ⌊x + 1/2⌋

/-- The chromatic table of frequencyToNoteName (audioEngine.ts):
noteNames = C C# D D# E F F# G G# A A# B. -/
def noteNames : List String :=
  ["C", "C#", "D", "D#"] ++ ["E", "F", "F#", "G"] ++ ["G#", "A", "A#", "B"]

/-- The noteMap of noteNameToFrequency (audioEngine.ts): semitone of each
accepted letter+accidental spelling. -/
def noteMap : List (String × ℕ) :=
  [("C", 0), ("C#", 1), ("Db", 1), ("D", 2), ("D#", 3), ("Eb", 3), ("E", 4),
   ("F", 5), ("F#", 6), ("Gb", 6), ("G", 7), ("G#", 8), ("Ab", 8), ("A", 9),
   ("A#", 10), ("Bb", 10), ("B", 11)]

/-- parseInt on the digit group matched by the regex: the digits read in
base 10.  Returns none when the character list is empty or contains a
non-digit, mirroring a failed match of the digit group. -/
def parseOctaveDigits (cs : List Char) : Option ℕ :=
  if cs ≠ [] ∧ cs.all Char.isDigit then
    some (cs.foldl (fun a c => 10 * a + (c.toNat - 48)) 0)
  else none

/-- Model of the regex match in noteNameToFrequency:
matching a note name against the anchored pattern letter A-G, optional
accidental sharp or flat, then one or more digits; returns the
letter+accidental group and the parsed octave. -/
def matchNoteName (s : String) : Option (String × ℕ) :=
  match s.data with
  | [] => none
  | c :: rest =>
    if ('A' ≤ c ∧ c ≤ 'G') then
      match rest with
      | [] => none
      | a :: rest2 =>
        if (a = '#' ∨ a = 'b') then
          (parseOctaveDigits rest2).map (fun o => (String.mk [c, a], o))
        else
          (parseOctaveDigits rest).map (fun o => (String.mk [c], o))
    else none

/-- noteNameToFrequency (audioEngine.ts): parse the name, look the
letter+accidental up in noteMap, and return
440 * 2 ^ ((midiNumber - 69) / 12) with midiNumber = (octave+1)*12 + semitone.
A failed regex match or a missing map entry models the thrown errors. -/
noncomputable def noteNameToFrequency (s : String) : Option ℝ :=
  match matchNoteName s with
  | none => none
  | some (note, octave) =>
    match noteMap.lookup note with
    | none => none
    | some semitone =>
      some (440 * (2 : ℝ) ^ (((((octave + 1) * 12 + semitone : ℕ) : ℝ) - 69) / 12))

/-- The midi-number computation Math.round(69 + 12 * Math.log2(f / 440)),
shared verbatim by frequencyToNoteName (audioEngine.ts) and exportToMIDI
(exportUtils.ts). -/
noncomputable def freqToMidiNumber (f : ℝ) : ℤ :=
  jsRound (69 + 12 * Real.logb 2 (f / 440))

/-- JS array indexing with an integer index: an out-of-range or negative
index yields undefined, which the template literal renders as the string
undefined. -/
def jsIndex (l : List String) (i : ℤ) : String :=
  if 0 ≤ i then l.getD i.toNat "undefined" else "undefined"

/-- frequencyToNoteName (audioEngine.ts): midiNumber as above, octave =
Math.floor(midiNumber / 12) - 1 (Euclidean division, as midiNumber is an
integer and 12 > 0), semitone = midiNumber % 12 (JS truncated remainder),
result is the template literal of the table entry and the octave. -/
noncomputable def frequencyToNoteName (f : ℝ) : String :=
  let midiNumber := freqToMidiNumber f
  let octave := midiNumber / 12 - 1
  let semitone := midiNumber.tmod 12
  jsIndex noteNames semitone ++ toString octave

/-- Note object of the arrangement (types/music.ts): frequency and duration
in JS numbers (here exact rationals), optional display name, optional rest
flag (an absent flag behaves as false). -/
structure JsNote where
  frequency : ℚ
  duration : ℚ
  note_name : Option String := none
  is_rest : Bool := false
deriving DecidableEq

/-- Arrangement object (types/music.ts). -/
structure Arrangement where
  title : String
  tempo_bpm : ℚ
  key_signature : String
  notes : List JsNote
  total_duration : ℚ
deriving DecidableEq

/-- Loop body of encodeVariableLength (exportUtils.ts): while the value
exceeds 0x7F, unshift the low seven bits with the high bit set and shift
right by seven; finally push the remaining value with the high bit clear.
The accumulator is the result array being unshifted into. -/
def encodeVLAux (v : ℕ) (acc : List ℕ) : List ℕ :=
  if 127 < v then encodeVLAux (v / 128) ((v % 128 + 128) :: acc)
  else acc ++ [v % 128]
termination_by v
decreasing_by exact Nat.div_lt_self (by omega) (by omega)

/-- encodeVariableLength (exportUtils.ts) on the non-negative integers it
receives (rounded tick counts). -/
def encodeVariableLength (v : ℕ) : List ℕ := encodeVLAux v []

/-- Modelled from the spec: the MIDI variable-length quantity, built by
repeatedly extracting the low 7 bits and prepending, terminating when the
remaining value is 0, with the very last byte the only one whose high bit
is clear.  Present only to compare the source encoder against the spec
sentence. -/
def specVLQAux (v : ℕ) (acc : List ℕ) : List ℕ :=
  if 0 < v then specVLQAux (v / 128) ((v % 128 + 128) :: acc)
  else acc
termination_by v
decreasing_by exact Nat.div_lt_self (by omega) (by omega)

/-- Modelled from the spec: the full variable-length quantity of a value,
low group written last with high bit clear, higher groups prepended. -/
def specVariableLengthQuantity (v : ℕ) : List ℕ :=
  specVLQAux (v / 128) [v % 128]

/-- Per-note event generation of exportToMIDI (exportUtils.ts): for each
non-rest note emit delta-time bytes, Note-On (0x90, midi note, velocity
0x64), duration bytes, Note-Off (0x80, midi note, velocity 0); every note,
rest or not, advances the running time cursor by its duration.  The
delta-time the source computes is Math.round(currentTime * 480 * bpm / 60)
where currentTime is the cumulative time since the start of the sequence. -/
noncomputable def noteEvents (tempo : ℚ) : ℚ → List JsNote → List ℤ
  | _, [] => []
  | t, n :: rest =>
    (if n.is_rest then ([] : List ℤ)
     else
       ((encodeVariableLength (jsRoundQ (t * 480 * tempo / 60)).toNat).map (fun b => (b : ℤ)))
         ++ [144, freqToMidiNumber ((n.frequency : ℝ)), 100]
         ++ ((encodeVariableLength (jsRoundQ (n.duration * 480 * tempo / 60)).toNat).map (fun b => (b : ℤ)))
         ++ [128, freqToMidiNumber ((n.frequency : ℝ)), 0])
      ++ noteEvents tempo (t + n.duration) rest

/-- The event stream of exportToMIDI: tempo meta event (delta 0, FF 51 03,
24-bit big-endian Math.round(60000000 / bpm)), the per-note events, and the
end-of-track meta event (delta 0, FF 2F 00). -/
noncomputable def midiTrackEvents (arr : Arrangement) : List ℤ :=
  let mpq := jsRoundQ (60000000 / arr.tempo_bpm)
  [0, 255, 81, 3, (mpq / 65536) % 256, (mpq / 256) % 256, mpq % 256]
    ++ noteEvents arr.tempo_bpm 0 arr.notes
    ++ [0, 255, 47, 0]

/-- Coercion a JS number undergoes when stored into a Uint8Array: for the
integer values produced here, the value modulo 256. -/
def toUint8 (v : ℤ) : ℕ := (v % 256).toNat

/-- The four big-endian bytes the source writes into the reserved track
length field: length shifted right by 24, 16, 8, 0 bits, each masked with
0xFF. -/
def uint32BE (n : ℕ) : List ℕ := [n / 2 ^ 24 % 256, n / 2 ^ 16 % 256, n / 2 ^ 8 % 256, n % 256]

/-- The fixed 14-byte MIDI header of exportToMIDI: MThd, length 6,
format 0, one track, division 0x01E0 = 480. -/
def midiHeaderBytes : List ℕ :=
  [77, 84, 104, 100, 0, 0, 0, 6, 0, 0, 0, 1, 1, 224]

/-- exportToMIDI (exportUtils.ts): header chunk, MTrk magic, the
back-patched big-endian event byte count, then the event stream stored
into the Uint8Array. -/
noncomputable def exportToMIDI (arr : Arrangement) : List ℕ :=
  midiHeaderBytes ++ [77, 84, 114, 107]
    ++ uint32BE (midiTrackEvents arr).length
    ++ (midiTrackEvents arr).map toUint8

/-- A scheduled oscillator+gain pair of AudioEngine.scheduleNote
(audioEngine.ts), remembering the frequency, duration argument and
absolute start time it was scheduled with. -/
structure Voice where
  frequency : ℚ
  duration : ℚ
  startTime : ℚ
deriving DecidableEq

/-- The AudioEngine state the sequence player touches: whether the audio
context and master gain exist, the isPlaying flag, and the array of
scheduled voices in scheduling order. -/
structure EngineState where
  hasContext : Bool
  isPlaying : Bool
  scheduledNotes : List Voice
deriving DecidableEq

/-- AudioEngine.stopAllNotes (audioEngine.ts): clears isPlaying, stops and
drops every scheduled voice. -/
def stopAllNotes (st : EngineState) : EngineState :=
  { st with isPlaying := false, scheduledNotes := [] }

/-- The scheduling loop of AudioEngine.playNoteSequence: walk the notes
with a running currentTime; every non-rest note with positive frequency is
scheduled at the current cursor; every note advances the cursor by its
duration. -/
def scheduleAll : ℚ → List JsNote → List Voice
  | _, [] => []
  | t, n :: rest =>
    (if n.is_rest = false ∧ 0 < n.frequency then [⟨n.frequency, n.duration, t⟩] else [])
      ++ scheduleAll (t + n.duration) rest

/-- AudioEngine.playNoteSequence (audioEngine.ts): initialize the context
if absent (initOk says whether that one-time initialization succeeds),
throw if it is still absent, otherwise stopAllNotes, set isPlaying and
schedule every playable note from the audio-context time now. -/
def playNoteSequence (st : EngineState) (initOk : Bool) (now : ℚ)
    (notes : List JsNote) : Except String EngineState :=
  let st1 := if st.hasContext then st else { st with hasContext := initOk }
  if st1.hasContext = false then
    Except.error "Failed to initialize audio context"
  else
    Except.ok { stopAllNotes st1 with isPlaying := true, scheduledNotes := scheduleAll now notes }

/-- noteDuration of AudioEngine.scheduleNote: Math.max(0.05, duration - 0.02). -/
def jsNoteDuration (d : ℚ) : ℚ := max 0.05 (d - 0.02)

/-- fadeIn of AudioEngine.scheduleNote: Math.min(0.005, noteDuration * 0.05). -/
def jsFadeIn (nd : ℚ) : ℚ := min 0.005 (nd * 0.05)

/-- fadeOut of AudioEngine.scheduleNote: Math.min(0.01, noteDuration * 0.1). -/
def jsFadeOut (nd : ℚ) : ℚ := min 0.01 (nd * 0.1)

/-- The four gain automation points AudioEngine.scheduleNote places on a
voice: 0 at startTime, 0.7 after fadeIn, 0.7 until fadeOut before the end
of noteDuration, 0 at noteDuration. -/
def gainPoints (t0 d : ℚ) : List (ℚ × ℚ) :=
  let nd := jsNoteDuration d
  [(t0, 0), (t0 + jsFadeIn nd, 0.7), (t0 + nd - jsFadeOut nd, 0.7), (t0 + nd, 0)]

/-- The absolute stop time AudioEngine.scheduleNote passes to
oscillator.stop: startTime + noteDuration. -/
def oscStopTime (t0 d : ℚ) : ℚ := t0 + jsNoteDuration d

/-- The amplitude curve those automation points describe: 0 before the
start, linear ramps between consecutive points, constant 0 after the last
point. -/
def gainAt (t0 d t : ℚ) : ℚ :=
  let nd := jsNoteDuration d
  let p1 := t0 + jsFadeIn nd
  let p2 := t0 + nd - jsFadeOut nd
  let p3 := t0 + nd
  if t ≤ t0 then 0
  else if t ≤ p1 then 0.7 * ((t - t0) / (p1 - t0))
  else if t ≤ p2 then 0.7
  else if t ≤ p3 then 0.7 * ((p3 - t) / (p3 - p2))
  else 0

/-- PlaybackState of the UI (types/music.ts), written by
MusicPlayer.trackPlaybackProgress. -/
structure UIPlaybackState where
  isPlaying : Bool
  currentNoteIndex : ℤ
  currentTime : ℚ
  totalDuration : ℚ
deriving DecidableEq

/-- The note-search loop of updateProgress (MusicPlayer.tsx): walk the
notes with a running offset; the first note whose half-open window
contains the elapsed time wins; if none does, the initial index 0 is kept. -/
def findNoteAux (e : ℚ) : ℚ → ℕ → List JsNote → ℕ
  | _, _, [] => 0
  | nt, i, n :: rest =>
    if nt ≤ e ∧ e < nt + n.duration then i
    else findNoteAux e (nt + n.duration) (i + 1) rest

/-- The loop started with noteTime 0 and noteIndex 0. -/
def findCurrentNote (e : ℚ) (notes : List JsNote) : ℕ := findNoteAux e 0 0 notes

/-- One tick of updateProgress (MusicPlayer.tsx): store the found index and
the elapsed time; then, if the elapsed time has reached total_duration,
overwrite with the finished state (not playing, index -1, time 0). -/
def updateProgress (prev : UIPlaybackState) (notes : List JsNote)
    (totalDuration elapsed : ℚ) : UIPlaybackState :=
  let s1 : UIPlaybackState :=
    { prev with currentNoteIndex := (findCurrentNote elapsed notes : ℤ), currentTime := elapsed }
  if elapsed < totalDuration then s1
  else { s1 with isPlaying := false, currentNoteIndex := -1, currentTime := 0 }

/-- Sum of the durations of the first i notes: the cumulative start offset
the scheduling loop reaches at note i. -/
def prefixDur (notes : List JsNote) (i : ℕ) : ℚ :=
  ((notes.take i).map (fun n => n.duration)).sum

lemma jsRound_intCast (m : ℤ) : jsRound (m : ℝ) = m := by
  unfold jsRound
  rw [Int.floor_int_add]
  norm_num

lemma freqToMidiNumber_pow (m : ℤ) :
    freqToMidiNumber (440 * (2 : ℝ) ^ (((m : ℝ) - 69) / 12)) = m := by
  unfold freqToMidiNumber
  have h1 : (440 * (2 : ℝ) ^ (((m : ℝ) - 69) / 12)) / 440
      = (2 : ℝ) ^ (((m : ℝ) - 69) / 12) := by
    field_simp
  rw [h1, Real.logb_rpow (by norm_num) (by norm_num)]
  have h2 : (69 : ℝ) + 12 * (((m : ℝ) - 69) / 12) = (m : ℝ) := by ring
  rw [h2, jsRound_intCast]

lemma freqToMidiNumber_440 : freqToMidiNumber (440 : ℝ) = 69 := by
  unfold freqToMidiNumber
  rw [show (440 : ℝ) / 440 = 1 by norm_num, Real.logb_one]
  rw [show (69 : ℝ) + 12 * 0 = ((69 : ℤ) : ℝ) by norm_num]
  exact jsRound_intCast 69

lemma jsRoundQ_eq (x : ℚ) (n : ℤ) (h1 : (n : ℚ) ≤ x + 1/2) (h2 : x + 1/2 < n + 1) :
    jsRoundQ x = n := by
  unfold jsRoundQ
  rw [Int.floor_eq_iff]
  exact ⟨h1, h2⟩

lemma encodeVLAux_step_gt (v : ℕ) (acc : List ℕ) (h : 127 < v) :
    encodeVLAux v acc = encodeVLAux (v / 128) ((v % 128 + 128) :: acc) := by
  rw [encodeVLAux]
  simp [h]

lemma encodeVLAux_step_le (v : ℕ) (acc : List ℕ) (h : ¬ 127 < v) :
    encodeVLAux v acc = acc ++ [v % 128] := by
  rw [encodeVLAux]
  simp [h]

/-- Evaluation of the source encoder on one-byte values. -/
lemma encodeVariableLength_small (v : ℕ) (h : v ≤ 127) :
    encodeVariableLength v = [v] := by
  unfold encodeVariableLength
  rw [encodeVLAux_step_le _ _ (by omega)]
  simp [Nat.mod_eq_of_lt (by omega : v < 128)]

/-- Evaluation of the source encoder on two-byte values: low group first
with the high bit set, then the remaining high bits. -/
lemma encodeVariableLength_two (v : ℕ) (h1 : 127 < v) (h2 : v / 128 ≤ 127) :
    encodeVariableLength v = [v % 128 + 128, v / 128] := by
  unfold encodeVariableLength
  rw [encodeVLAux_step_gt _ _ h1, encodeVLAux_step_le _ _ (by omega)]
  simp [Nat.mod_eq_of_lt (by omega : v / 128 < 128)]


lemma freqToMidiNumber_440Q : freqToMidiNumber (((440 : ℚ)) : ℝ) = 69 := by
  rw [show (((440 : ℚ)) : ℝ) = (440 : ℝ) by norm_num]
  exact freqToMidiNumber_440

lemma ratio_52325 : (((523.25 : ℚ)) : ℝ) / 440 = 2093 / 1760 := by
  norm_num

lemma rpow_five_24 : ((2 : ℝ) ^ ((5 : ℝ) / 24)) ^ (24 : ℕ) = 32 := by
  rw [← Real.rpow_natCast ((2 : ℝ) ^ ((5 : ℝ) / 24)) 24, ← Real.rpow_mul (by norm_num)]
  rw [show (5 : ℝ) / 24 * (24 : ℕ) = ((5 : ℕ) : ℝ) by norm_num]
  rw [Real.rpow_natCast]
  norm_num

lemma rpow_seven_24 : ((2 : ℝ) ^ ((7 : ℝ) / 24)) ^ (24 : ℕ) = 128 := by
  rw [← Real.rpow_natCast ((2 : ℝ) ^ ((7 : ℝ) / 24)) 24, ← Real.rpow_mul (by norm_num)]
  rw [show (7 : ℝ) / 24 * (24 : ℕ) = ((7 : ℕ) : ℝ) by norm_num]
  rw [Real.rpow_natCast]
  norm_num

lemma logb_ratio_lower : (5 : ℝ) / 24 ≤ Real.logb 2 ((2093 : ℝ) / 1760) := by
  rw [Real.le_logb_iff_rpow_le (by norm_num) (by norm_num)]
  have h24 : ((2 : ℝ) ^ ((5 : ℝ) / 24)) ^ (24 : ℕ) ≤ ((2093 : ℝ) / 1760) ^ (24 : ℕ) := by
    rw [rpow_five_24]
    norm_num
  exact le_of_pow_le_pow_left₀ (by norm_num) (by norm_num) h24

lemma logb_ratio_upper : Real.logb 2 ((2093 : ℝ) / 1760) < (7 : ℝ) / 24 := by
  rw [Real.logb_lt_iff_lt_rpow (by norm_num) (by norm_num)]
  have h24 : ((2093 : ℝ) / 1760) ^ (24 : ℕ) < ((2 : ℝ) ^ ((7 : ℝ) / 24)) ^ (24 : ℕ) := by
    rw [rpow_seven_24]
    norm_num
  exact lt_of_pow_lt_pow_left₀ 24 (by positivity) h24

lemma freqToMidiNumber_52325 : freqToMidiNumber (((523.25 : ℚ)) : ℝ) = 72 := by
  unfold freqToMidiNumber jsRound
  rw [ratio_52325, Int.floor_eq_iff]
  have h1 := logb_ratio_lower
  have h2 := logb_ratio_upper
  constructor
  · push_cast
    linarith
  · push_cast
    linarith

/-- Two consecutive half-second 440 Hz notes at 120 BPM: the smallest
sequence on which the delta-time computation of exportToMIDI diverges from
the MIDI delta-time convention. -/
def exTwoNotes : Arrangement :=
  ⟨"two", 120, "C", [⟨440, 1/2, none, false⟩, ⟨440, 1/2, none, false⟩], 1⟩

/-- The example sequence of the spec: 440 Hz for 0.5 s, a 0.25 s rest,
523.25 Hz for 0.5 s, at 120 BPM. -/
def exSpecSequence : Arrangement :=
  ⟨"ex", 120, "C", [⟨440, 1/2, none, false⟩, ⟨0, 1/4, none, true⟩, ⟨523.25, 1/2, none, false⟩], 5/4⟩

/-- A sequence whose only note is a non-rest note of frequency 0: invalid
input the spec wants the exporter to reject. -/
def exZeroFrequency : Arrangement :=
  ⟨"zero", 120, "C", [⟨0, 1, none, false⟩], 1⟩

lemma jsRoundQ_0 : jsRoundQ (0 : ℚ) = 0 := jsRoundQ_eq _ _ (by norm_num) (by norm_num)

lemma jsRoundQ_480 : jsRoundQ (480 : ℚ) = 480 := jsRoundQ_eq _ _ (by norm_num) (by norm_num)

lemma jsRoundQ_720 : jsRoundQ (720 : ℚ) = 720 := jsRoundQ_eq _ _ (by norm_num) (by norm_num)

lemma jsRoundQ_960 : jsRoundQ (960 : ℚ) = 960 := jsRoundQ_eq _ _ (by norm_num) (by norm_num)

lemma jsRoundQ_500000 : jsRoundQ (500000 : ℚ) = 500000 := jsRoundQ_eq _ _ (by norm_num) (by norm_num)

/-- Claim C1: the spec states that every Note-On delta-time is the tick
count elapsed since the previous emitted event.  The source instead rounds
the cumulative time since the start of the sequence.  On two back-to-back
half-second notes at 120 BPM the Note-Off of the first note already sits
480 ticks into the track, so the second Note-On should carry delta 0; the
produced stream carries the encoder bytes 224, 3 for delta 480 in front of
the second Note-On (0x90 = 144), placing the second note at tick 960
instead of 480.  The Note-Off deltas (bytes for 480 after each 144 block)
do match the claim. -/
theorem claim_C1_noteOn_delta_uses_absolute_time :
    midiTrackEvents exTwoNotes
      = [0, 255, 81, 3, 7, 161, 32,
         0, 144, 69, 100, 224, 3, 128, 69, 0,
         224, 3, 144, 69, 100, 224, 3, 128, 69, 0,
         0, 255, 47, 0] := by
  simp only [midiTrackEvents, exTwoNotes, noteEvents]
  norm_num [jsRoundQ_0, jsRoundQ_480, jsRoundQ_500000, freqToMidiNumber_440,
    Int.toNat_ofNat, encodeVariableLength_small, encodeVariableLength_two]
  simp [encodeVariableLength_small, encodeVariableLength_two]

/-- Claim C2: the spec describes the standard MIDI variable-length
quantity, most-significant group first.  The source encoder unshifts the
low seven bits while more than 0x7F remains and then appends the leftover
high bits, so from 128 on it emits the least-significant group first: 128
becomes 0x80 0x01, while the variable-length quantity of 128 is 0x81 0x00. -/
theorem claim_C2_encoder_reverses_groups :
    encodeVariableLength 128 = [128, 1]
    ∧ specVariableLengthQuantity 128 = [129, 0]
    ∧ encodeVariableLength 128 ≠ specVariableLengthQuantity 128 := by
  have h1 : encodeVariableLength 128 = [128, 1] := by
    rw [encodeVariableLength_two 128 (by norm_num) (by norm_num)]
  have h2 : specVariableLengthQuantity 128 = [129, 0] := by
    unfold specVariableLengthQuantity
    rw [specVLQAux]
    norm_num
    rw [specVLQAux]
    norm_num
  refine ⟨h1, h2, ?_⟩
  rw [h1, h2]
  decide

/-- Claim C7 (amended): the exporter never rejects anything: it is a total
function whose output always consists of the 14 header bytes, the 4 MTrk
bytes, the 4 length bytes and the event stream, whatever the note
frequencies are.  In particular a non-rest note of frequency 0 is exported
like any other note instead of raising an error. -/
theorem claim_C7_export_total (arr : Arrangement) :
    (exportToMIDI arr).length = 22 + (midiTrackEvents arr).length := by
  simp [exportToMIDI, uint32BE, midiHeaderBytes]
  omega

/-- Claim C7 counterexample: exporting the sequence whose only note is a
non-rest note of frequency 0 yields a full 42-byte buffer, not an error
and not an empty output: the export is not rejected. -/
theorem claim_C7_zero_frequency_still_exports :
    (exportToMIDI exZeroFrequency).length = 42 := by
  have hev : (midiTrackEvents exZeroFrequency).length = 20 := by
    simp only [midiTrackEvents, exZeroFrequency, noteEvents]
    norm_num [jsRoundQ_0, jsRoundQ_960, jsRoundQ_500000, Int.toNat_ofNat,
      encodeVariableLength_small, encodeVariableLength_two]
    simp [encodeVariableLength_small, encodeVariableLength_two]
  simp [exportToMIDI, uint32BE, midiHeaderBytes, hev]

lemma freqToMidiNumber_52325R : freqToMidiNumber ((2093 : ℝ) / 4) = 72 := by
  unfold freqToMidiNumber jsRound
  rw [show (2093 : ℝ) / 4 / 440 = 2093 / 1760 by norm_num, Int.floor_eq_iff]
  have h1 := logb_ratio_lower
  have h2 := logb_ratio_upper
  constructor
  · push_cast
    linarith
  · push_cast
    linarith

/-- Claim C3: every exported buffer opens with the exact 14-byte header
chunk (MThd, length 6, format 0, 1 track, division 480); what follows is
the MTrk magic, the four big-endian bytes of the byte count of the event
stream, then exactly that stream; and on the spec example sequence the
stream holds precisely two Note-On/Note-Off pairs, with midi notes 69 and
72, the rest only enlarging the delta in front of the second pair (720
ticks, bytes 208, 5 under the source encoder) and emitting nothing. -/
theorem claim_C3_header_and_track_length :
    (∀ arr : Arrangement,
        (exportToMIDI arr).take 14 = [77, 84, 104, 100, 0, 0, 0, 6, 0, 0, 0, 1, 1, 224])
    ∧ (∀ arr : Arrangement,
        (exportToMIDI arr).drop 14
          = [77, 84, 114, 107] ++ uint32BE ((midiTrackEvents arr).map toUint8).length
              ++ (midiTrackEvents arr).map toUint8)
    ∧ midiTrackEvents exSpecSequence
        = [0, 255, 81, 3, 7, 161, 32,
           0, 144, 69, 100, 224, 3, 128, 69, 0,
           208, 5, 144, 72, 100, 224, 3, 128, 72, 0,
           0, 255, 47, 0] := by
  refine ⟨?_, ?_, ?_⟩
  · intro arr
    simp [exportToMIDI, midiHeaderBytes]
  · intro arr
    simp [exportToMIDI, midiHeaderBytes]
  · simp only [midiTrackEvents, exSpecSequence, noteEvents]
    norm_num [jsRoundQ_0, jsRoundQ_480, jsRoundQ_720, jsRoundQ_500000,
      freqToMidiNumber_440, freqToMidiNumber_52325R,
      Int.toNat_ofNat, encodeVariableLength_small, encodeVariableLength_two]
    simp [encodeVariableLength_small, encodeVariableLength_two]

lemma lookup_lt_of_all (l : List (String × ℕ)) (hall : ∀ p ∈ l, p.2 < 12) (k : String)
    (v : ℕ) (h : l.lookup k = some v) : v < 12 := by
  induction l with
  | nil => simp [List.lookup] at h
  | cons p rest ih =>
    rw [List.lookup] at h
    by_cases hk : (k == p.1) = true
    · rw [hk] at h
      have : p.2 = v := by simpa using h
      exact this ▸ hall p (by simp)
    · have hk2 : (k == p.1) = false := by simpa using hk
      rw [hk2] at h
      exact ih (fun q hq => hall q (by simp [hq])) h

lemma lookup_noteMap_lt (k : String) (v : ℕ) (h : noteMap.lookup k = some v) : v < 12 :=
  lookup_lt_of_all noteMap (by decide) k v h

/-- The round-trip computation shared by the C4 theorem and its
counterexample: a successfully parsed name comes back from
frequencyToNoteName as the chromatic-table (sharp) spelling of the same
semitone with the same octave. -/
lemma roundtrip_canonical_aux (s note : String) (octave semitone : ℕ)
    (hm : matchNoteName s = some (note, octave))
    (hs : noteMap.lookup note = some semitone) :
    (noteNameToFrequency s).map frequencyToNoteName
      = some (noteNames.getD semitone "" ++ toString ((octave : ℤ))) := by
  have hlt : semitone < 12 := lookup_noteMap_lt _ _ hs
  have hmidi : freqToMidiNumber
      (440 * (2 : ℝ) ^ (((((octave + 1) * 12 + semitone : ℕ) : ℝ) - 69) / 12))
      = (((octave + 1) * 12 + semitone : ℕ) : ℤ) := by
    have h0 := freqToMidiNumber_pow ((((octave + 1) * 12 + semitone : ℕ) : ℤ))
    have hc : (((((octave + 1) * 12 + semitone : ℕ) : ℤ)) : ℝ)
        = (((octave + 1) * 12 + semitone : ℕ) : ℝ) := by
      push_cast
      ring
    rw [hc] at h0
    exact h0
  unfold noteNameToFrequency
  rw [hm]
  dsimp only
  rw [hs]
  dsimp only [Option.map]
  unfold frequencyToNoteName
  dsimp only
  rw [hmidi]
  have ht : ((((octave + 1) * 12 + semitone : ℕ)) : ℤ).tmod 12 = (semitone : ℤ) := by
    rw [Int.tmod_eq_emod (by positivity) (by norm_num)]
    push_cast
    omega
  have hdiv : ((((octave + 1) * 12 + semitone : ℕ)) : ℤ) / 12 - 1 = (octave : ℤ) := by
    push_cast
    omega
  rw [ht, hdiv]
  unfold jsIndex
  rw [if_pos (by positivity : (0 : ℤ) ≤ (semitone : ℤ))]
  rw [Int.toNat_ofNat]
  rw [List.getD_eq_getElem _ _ (by simpa using hlt), List.getD_eq_getElem _ _ (by simpa using hlt)]

/-- Claim C4 (amended): for every note name the regex accepts and whose
letter+accidental is in the table, the round trip
frequencyToNoteName (noteNameToFrequency N) returns the chromatic-table
spelling of the same pitch: same semitone, same octave, with sharps as the
only accidentals.  It equals N itself exactly when N already is that
spelling; a flat spelling comes back as its enharmonic sharp name. -/
theorem claim_C4_roundtrip_canonical (s note : String) (octave semitone : ℕ)
    (hm : matchNoteName s = some (note, octave))
    (hs : noteMap.lookup note = some semitone) :
    (noteNameToFrequency s).map frequencyToNoteName
      = some (noteNames.getD semitone "" ++ toString ((octave : ℤ))) :=
  roundtrip_canonical_aux s note octave semitone hm hs

/-- Claim C4 counterexample: the valid flat spelling Db4 does not
round-trip to itself: it comes back as C#4. -/
theorem claim_C4_flat_not_roundtripped :
    (noteNameToFrequency "Db4").map frequencyToNoteName = some "C#4"
    ∧ "C#4" ≠ "Db4" := by
  constructor
  · have h := roundtrip_canonical_aux "Db4" "Db" 4 1 (by decide) (by decide)
    rw [h]
    decide
  · decide

/-- Claim C4 witness: the canonical name A4 round-trips to itself. -/
theorem claim_C4_roundtrip_canonical_witness :
    matchNoteName "A4" = some ("A", 4) ∧ noteMap.lookup "A" = some 9
    ∧ (noteNameToFrequency "A4").map frequencyToNoteName = some "A4" := by
  refine ⟨by decide, by decide, ?_⟩
  have h := claim_C4_roundtrip_canonical "A4" "A" 4 9 (by decide) (by decide)
  rw [h]
  decide

lemma tmod_negSucc (k : ℕ) : (Int.negSucc k).tmod 12 = -(((k + 1) % 12 : ℕ) : ℤ) := rfl

lemma exists_negSucc (m : ℤ) (hm : m < 0) : ∃ k : ℕ, m = Int.negSucc k := by
  cases m with
  | ofNat n => exact absurd hm (by exact Int.not_lt.mpr (Int.ofNat_nonneg n))
  | negSucc k => exact ⟨k, rfl⟩

/-- Claim C10 (amended): for a positive frequency, frequencyToNoteName is
total; when the rounded midi number is non-negative the result is the
chromatic-table entry of midi % 12 (an in-range index) followed by the
octave; when the midi number is negative and not a multiple of 12 the JS
lookup is out of bounds and the result starts with the text undefined; but
when the negative midi number is a multiple of 12, midi % 12 is 0 in JS,
the lookup lands on C, and the result is a well-formed C with a negative
octave rather than a malformed string. -/
theorem claim_C10_name_shape (f : ℝ) (hf : 0 < f) :
    (0 ≤ freqToMidiNumber f →
        frequencyToNoteName f
          = noteNames.getD ((freqToMidiNumber f).tmod 12).toNat ""
              ++ toString (freqToMidiNumber f / 12 - 1)
          ∧ ((freqToMidiNumber f).tmod 12).toNat < noteNames.length)
    ∧ (freqToMidiNumber f < 0 → ¬(12 : ℤ) ∣ freqToMidiNumber f →
        frequencyToNoteName f = "undefined" ++ toString (freqToMidiNumber f / 12 - 1))
    ∧ (freqToMidiNumber f < 0 → (12 : ℤ) ∣ freqToMidiNumber f →
        frequencyToNoteName f = "C" ++ toString (freqToMidiNumber f / 12 - 1)) := by
  unfold frequencyToNoteName
  dsimp only
  generalize freqToMidiNumber f = m
  refine ⟨?_, ?_, ?_⟩
  · intro h0
    have hemod : m.tmod 12 = m % 12 := Int.tmod_eq_emod h0 (by norm_num)
    have h1 : 0 ≤ m % 12 := Int.emod_nonneg m (by norm_num)
    have h2 : m % 12 < 12 := Int.emod_lt_of_pos m (by norm_num)
    have hlen : (m.tmod 12).toNat < noteNames.length := by
      have h12 : noteNames.length = 12 := by decide
      rw [hemod, h12]
      omega
    refine ⟨?_, hlen⟩
    unfold jsIndex
    rw [if_pos (hemod ▸ h1)]
    rw [List.getD_eq_getElem _ _ hlen, List.getD_eq_getElem _ _ hlen]
  · intro hneg hnd
    obtain ⟨k, rfl⟩ := exists_negSucc m hneg
    have hkd : ¬ (12 ∣ (k + 1)) := by
      intro hd
      refine hnd ?_
      rw [Int.negSucc_eq]
      refine dvd_neg.mpr ?_
      exact_mod_cast Int.natCast_dvd_natCast.mpr hd
    have hk0 : (k + 1) % 12 ≠ 0 := by omega
    have htneg : (Int.negSucc k).tmod 12 < 0 := by
      rw [tmod_negSucc]
      omega
    unfold jsIndex
    rw [if_neg (by omega)]
  · intro hneg hd
    obtain ⟨k, rfl⟩ := exists_negSucc m hneg
    have hkd : 12 ∣ (k + 1) := by
      rw [Int.negSucc_eq] at hd
      have := (dvd_neg).mp hd
      exact_mod_cast this
    have ht0 : (Int.negSucc k).tmod 12 = 0 := by
      rw [tmod_negSucc]
      have : (k + 1) % 12 = 0 := by omega
      simp [this]
    rw [ht0]
    unfold jsIndex
    rw [if_pos (by norm_num)]
    have hC : noteNames.getD (Int.toNat 0) "undefined" = "C" := by decide
    rw [hC]

/-- Claim C10 counterexample: the positive frequency 440 * 2 ^ (-81/12)
rounds to midi number -12, which is negative, yet frequencyToNoteName
returns the well-formed string C-2 and not a malformed undefined string:
a negative midi number does not always put the lookup out of bounds. -/
theorem claim_C10_neg_multiple_of_12_wellformed :
    freqToMidiNumber (440 * (2 : ℝ) ^ ((-81 : ℝ) / 12)) = -12
    ∧ frequencyToNoteName (440 * (2 : ℝ) ^ ((-81 : ℝ) / 12)) = "C-2" := by
  have hm : freqToMidiNumber (440 * (2 : ℝ) ^ ((-81 : ℝ) / 12)) = -12 := by
    have h0 := freqToMidiNumber_pow (-12)
    rw [show (((-12 : ℤ)) : ℝ) - 69 = (-81 : ℝ) by norm_num] at h0
    exact h0
  refine ⟨hm, ?_⟩
  unfold frequencyToNoteName
  dsimp only
  rw [hm]
  have h1 : ((-12 : ℤ)).tmod 12 = 0 := by decide
  have h2 : ((-12 : ℤ)) / 12 - 1 = -2 := by decide
  rw [h1, h2]
  unfold jsIndex
  rw [if_pos (by norm_num)]
  decide

/-- Claim C10 witness: at 440 Hz the midi number 69 is non-negative and
the returned name is the well-formed A4. -/
theorem claim_C10_name_shape_witness :
    (0 : ℝ) < 440 ∧ frequencyToNoteName (440 : ℝ) = "A4" := by
  refine ⟨by norm_num, ?_⟩
  obtain ⟨h1, -, -⟩ := claim_C10_name_shape 440 (by norm_num)
  rw [freqToMidiNumber_440] at h1
  obtain ⟨he, -⟩ := h1 (by norm_num)
  rw [he]
  decide

/-- Whatever state the engine is in, a playNoteSequence call with a
working context always succeeds: it clears the previous voices, sets
isPlaying and installs exactly the schedule of the new notes. -/
lemma playNoteSequence_ok (st : EngineState) (now : ℚ) (notes : List JsNote) :
    playNoteSequence st true now notes = Except.ok ⟨true, true, scheduleAll now notes⟩ := by
  cases st with
  | mk hc ip vs => cases hc <;> simp [playNoteSequence, stopAllNotes]

/-- Claim C5 (amended): playNoteSequence never fails with an
AlreadyPlaying error.  Called while the engine is still playing, it stops
and discards every previously scheduled voice (stopAllNotes) and then
schedules the new sequence, returning success; the only failure the source
knows is a missing audio context. -/
theorem claim_C5_restart_cancels_previous (st : EngineState) (now : ℚ)
    (notes : List JsNote) (hactive : st.isPlaying = true) :
    playNoteSequence st true now notes = Except.ok ⟨true, true, scheduleAll now notes⟩ :=
  playNoteSequence_ok st now notes

/-- Claim C5 counterexample: starting on an engine that is actively
playing (isPlaying, one live voice) returns success, not an error, and
schedules a new non-empty set of voices — the call does not fail with
AlreadyPlaying and does begin a new run. -/
theorem claim_C5_start_while_active_succeeds :
    playNoteSequence ⟨true, true, [⟨440, 1, 0⟩]⟩ true 5 [⟨330, 1/2, none, false⟩]
      = Except.ok ⟨true, true, [⟨330, 1/2, 5⟩]⟩
    ∧ ([⟨330, 1/2, 5⟩] : List Voice) ≠ [] := by
  constructor
  · norm_num [playNoteSequence, stopAllNotes, scheduleAll]
  · simp

/-- Claim C5 witness: a concrete active engine restarted on a one-note
sequence. -/
theorem claim_C5_restart_cancels_previous_witness :
    (EngineState.mk true true [⟨440, 1, 0⟩]).isPlaying = true
    ∧ playNoteSequence ⟨true, true, [⟨440, 1, 0⟩]⟩ true 7 [⟨220, 1, none, false⟩]
      = Except.ok ⟨true, true, [⟨220, 1, 7⟩]⟩ := by
  refine ⟨rfl, ?_⟩
  have h := claim_C5_restart_cancels_previous ⟨true, true, [⟨440, 1, 0⟩]⟩ 7
    [⟨220, 1, none, false⟩] rfl
  rw [h]
  norm_num [scheduleAll]

/-- Claim C6 counterexample: a non-rest note of duration 0.03 s starting
at 0 is scheduled with noteDuration max(0.05, 0.01) = 0.05, so the
oscillator stop time 0.05 lies after the declared end 0.03 and the
amplitude at the declared end is the sustain value 0.7, not 0. -/
theorem claim_C6_short_note_exceeds_duration :
    oscStopTime 0 (3/100) = 1/20
    ∧ (3/100 : ℚ) < 1/20
    ∧ gainAt 0 (3/100) (3/100) = 7/10 := by
  refine ⟨?_, by norm_num, ?_⟩
  · norm_num [oscStopTime, jsNoteDuration, max_def]
  · norm_num [gainAt, jsNoteDuration, jsFadeIn, jsFadeOut, min_def, max_def]

/-- Claim C6 (amended): for notes of duration at least 0.05 s the claim
holds: the curve is exactly 0 at the start, exactly 0 at start + duration,
and neither a gain point nor the oscillator stop time lies after
start + duration (the last point sits at start + max(0.05, duration-0.02)).
The envelope uses the fixed fades of scheduleNote, not compressed
attack/decay/release phases, and for durations below 0.05 s the guarantee
fails, as the counterexample shows. -/
theorem claim_C6_envelope_within_duration (t0 d : ℚ) (hd : 1/20 ≤ d) :
    gainAt t0 d t0 = 0
    ∧ gainAt t0 d (t0 + d) = 0
    ∧ oscStopTime t0 d ≤ t0 + d
    ∧ ∀ p ∈ gainPoints t0 d, p.1 ≤ t0 + d := by
  have h005 : (0.05 : ℚ) = 1/20 := by norm_num
  have hnd_le : jsNoteDuration d ≤ d := by
    unfold jsNoteDuration
    rw [max_le_iff]
    constructor
    · rw [h005]
      exact hd
    · linarith
  have hnd_ge : (1/20 : ℚ) ≤ jsNoteDuration d := by
    unfold jsNoteDuration
    rw [← h005]
    exact le_max_left _ _
  have hfi : jsFadeIn (jsNoteDuration d) ≤ 1/200 := by
    unfold jsFadeIn
    exact le_trans (min_le_left _ _) (by norm_num)
  have hfo_pos : 0 < jsFadeOut (jsNoteDuration d) := by
    unfold jsFadeOut
    rw [lt_min_iff]
    constructor
    · norm_num
    · nlinarith
  have hfo_le : jsFadeOut (jsNoteDuration d) ≤ 1/100 := by
    unfold jsFadeOut
    exact le_trans (min_le_left _ _) (by norm_num)
  refine ⟨?_, ?_, ?_, ?_⟩
  · unfold gainAt
    rw [if_pos (le_refl t0)]
  · unfold gainAt
    rw [if_neg (by linarith)]
    rw [if_neg (by linarith)]
    rw [if_neg (by linarith)]
    by_cases h4 : t0 + d ≤ t0 + jsNoteDuration d
    · rw [if_pos h4]
      have heq : jsNoteDuration d = d := le_antisymm hnd_le (by linarith)
      rw [heq]
      have hz : t0 + d - (t0 + d) = 0 := by ring
      rw [hz]
      simp
    · rw [if_neg h4]
  · unfold oscStopTime
    linarith
  · intro p hp
    unfold gainPoints at hp
    simp only [List.mem_cons, List.not_mem_nil, or_false] at hp
    rcases hp with h | h | h | h <;> rw [h] <;> dsimp <;> linarith

/-- Claim C6 witness: a half-second note at t0 = 0 satisfies the amended
guarantee. -/
theorem claim_C6_envelope_within_duration_witness :
    (1/20 : ℚ) ≤ 1/2
    ∧ gainAt 0 (1/2) 0 = 0
    ∧ gainAt 0 (1/2) (0 + 1/2) = 0
    ∧ oscStopTime 0 (1/2) ≤ 0 + 1/2 := by
  have h := claim_C6_envelope_within_duration 0 (1/2) (by norm_num)
  exact ⟨by norm_num, h.1, h.2.1, h.2.2.1⟩

lemma prefixDur_zero (notes : List JsNote) : prefixDur notes 0 = 0 := rfl

lemma prefixDur_cons_succ (n : JsNote) (rest : List JsNote) (i : ℕ) :
    prefixDur (n :: rest) (i + 1) = n.duration + prefixDur rest i := by
  simp [prefixDur]

lemma prefixDur_nonneg (notes : List JsNote) (h : ∀ n ∈ notes, 0 ≤ n.duration) (i : ℕ) :
    0 ≤ prefixDur notes i := by
  apply List.sum_nonneg
  intro x hx
  simp only [List.mem_map] at hx
  obtain ⟨n, hn, rfl⟩ := hx
  exact h n (List.mem_of_mem_take hn)

/-- The search loop of updateProgress finds the unique note whose window
contains the elapsed time: walking from offset nt with running index k, if
note i (relative to the remaining list) contains e, the loop answers k+i. -/
lemma findNoteAux_spec (e : ℚ) :
    ∀ (notes : List JsNote) (nt : ℚ) (k i : ℕ) (hi : i < notes.length),
      (∀ n ∈ notes, 0 ≤ n.duration) →
      nt + prefixDur notes i ≤ e →
      e < nt + prefixDur notes i + (notes.get ⟨i, hi⟩).duration →
      findNoteAux e nt k notes = k + i := by
  intro notes
  induction notes with
  | nil =>
    intro nt k i hi
    simp at hi
  | cons n rest ih =>
    intro nt k i hi hd hlo hhi
    cases i with
    | zero =>
      rw [findNoteAux]
      rw [prefixDur_zero] at hlo hhi
      rw [if_pos ⟨by linarith, by simpa using hhi⟩]
      omega
    | succ j =>
      rw [findNoteAux]
      have hd0 : 0 ≤ n.duration := hd n (by simp)
      have hrest : 0 ≤ prefixDur rest j :=
        prefixDur_nonneg rest (fun x hx => hd x (by simp [hx])) j
      rw [prefixDur_cons_succ] at hlo hhi
      have hcond : ¬ (nt ≤ e ∧ e < nt + n.duration) := by
        rintro ⟨-, hc⟩
        linarith
      rw [if_neg hcond]
      have hj : j < rest.length := by simpa using hi
      have hget : (n :: rest).get ⟨j + 1, hi⟩ = rest.get ⟨j, hj⟩ := rfl
      rw [hget] at hhi
      have hrec := ih (nt + n.duration) (k + 1) j hj
        (fun x hx => hd x (by simp [hx])) (by linarith) (by linarith)
      rw [hrec]
      omega

/-- Claim C8: while elapsed time is below total_duration, the reported
currentNoteIndex is the index of the note whose half-open window
[offset, offset+duration) contains the elapsed time, boundaries belonging
to the entered note; once elapsed time reaches total_duration the state
reports index -1 and isPlaying false. -/
theorem claim_C8_progress_reporting (prev : UIPlaybackState) (notes : List JsNote)
    (total elapsed : ℚ) (hd : ∀ n ∈ notes, 0 ≤ n.duration) :
    (∀ i (hi : i < notes.length),
        prefixDur notes i ≤ elapsed →
        elapsed < prefixDur notes i + (notes.get ⟨i, hi⟩).duration →
        elapsed < total →
        (updateProgress prev notes total elapsed).currentNoteIndex = (i : ℤ))
    ∧ (total ≤ elapsed →
        (updateProgress prev notes total elapsed).currentNoteIndex = -1
        ∧ (updateProgress prev notes total elapsed).isPlaying = false) := by
  constructor
  · intro i hi hlo hhi hlt
    unfold updateProgress
    rw [if_pos hlt]
    dsimp only
    unfold findCurrentNote
    rw [findNoteAux_spec elapsed notes 0 0 i hi hd (by simpa using hlo) (by simpa using hhi)]
    simp
  · intro hge
    unfold updateProgress
    rw [if_neg (not_lt.mpr hge)]
    exact ⟨rfl, rfl⟩

/-- The three-note sequence of the spec example: durations 0.5, 0.25 and
0.75 seconds, no rests, total 1.5 s. -/
def exThreeNotes : List JsNote :=
  [⟨440, 1/2, none, false⟩, ⟨330, 1/4, none, false⟩, ⟨220, 3/4, none, false⟩]

/-- Claim C8 witness: on the spec example, sampling at 0.6 s reports note
index 1, and sampling past the total duration reports -1 and not playing. -/
theorem claim_C8_progress_reporting_witness :
    (∀ n ∈ exThreeNotes, 0 ≤ n.duration)
    ∧ (updateProgress ⟨true, 0, 0, 3/2⟩ exThreeNotes (3/2) (3/5)).currentNoteIndex = 1
    ∧ (updateProgress ⟨true, 0, 0, 3/2⟩ exThreeNotes (3/2) (8/5)).currentNoteIndex = -1
    ∧ (updateProgress ⟨true, 0, 0, 3/2⟩ exThreeNotes (3/2) (8/5)).isPlaying = false := by
  have hd : ∀ n ∈ exThreeNotes, 0 ≤ n.duration := by
    intro n hn
    simp only [exThreeNotes, List.mem_cons, List.not_mem_nil, or_false] at hn
    rcases hn with h | h | h <;> rw [h] <;> norm_num
  obtain ⟨h1, -⟩ := claim_C8_progress_reporting ⟨true, 0, 0, 3/2⟩ exThreeNotes (3/2) (3/5) hd
  obtain ⟨-, h2⟩ := claim_C8_progress_reporting ⟨true, 0, 0, 3/2⟩ exThreeNotes (3/2) (8/5) hd
  refine ⟨hd, ?_, (h2 (by norm_num)).1, (h2 (by norm_num)).2⟩
  have := h1 1 (by norm_num [exThreeNotes])
    (by norm_num [prefixDur, exThreeNotes])
    (by norm_num [prefixDur, exThreeNotes])
    (by norm_num)
  simpa using this

/-- Every playable note ends up as a voice whose start time is the loop
cursor at its position: the base time plus the prefix sum of all earlier
durations, rests included. -/
lemma scheduleAll_mem :
    ∀ (notes : List JsNote) (t : ℚ) (i : ℕ) (hi : i < notes.length),
      (notes.get ⟨i, hi⟩).is_rest = false →
      0 < (notes.get ⟨i, hi⟩).frequency →
      Voice.mk (notes.get ⟨i, hi⟩).frequency (notes.get ⟨i, hi⟩).duration
          (t + prefixDur notes i)
        ∈ scheduleAll t notes := by
  intro notes
  induction notes with
  | nil =>
    intro t i hi
    simp at hi
  | cons n rest ih =>
    intro t i hi hr hf
    cases i with
    | zero =>
      rw [scheduleAll, prefixDur_zero]
      have hget : (n :: rest).get ⟨0, hi⟩ = n := rfl
      rw [hget] at hr hf ⊢
      rw [if_pos ⟨hr, hf⟩]
      simp
    | succ j =>
      rw [scheduleAll]
      have hj : j < rest.length := by simpa using hi
      have hget : (n :: rest).get ⟨j + 1, hi⟩ = rest.get ⟨j, hj⟩ := rfl
      rw [hget] at hr hf ⊢
      rw [prefixDur_cons_succ]
      refine List.mem_append.mpr (Or.inr ?_)
      have := ih (t + n.duration) j hj hr hf
      rw [show t + (n.duration + prefixDur rest j) = t + n.duration + prefixDur rest j by ring]
      exact this

/-- Every voice the loop schedules starts no earlier than the cursor the
loop started from, when durations are non-negative. -/
lemma scheduleAll_start_ge :
    ∀ (notes : List JsNote) (t : ℚ), (∀ n ∈ notes, 0 ≤ n.duration) →
      ∀ v ∈ scheduleAll t notes, t ≤ v.startTime := by
  intro notes
  induction notes with
  | nil =>
    intro t hd v hv
    simp [scheduleAll] at hv
  | cons n rest ih =>
    intro t hd v hv
    rw [scheduleAll] at hv
    rcases List.mem_append.mp hv with h | h
    · by_cases hc : n.is_rest = false ∧ 0 < n.frequency
      · rw [if_pos hc] at h
        have : v = Voice.mk n.frequency n.duration t := by simpa using h
        rw [this]
      · rw [if_neg hc] at h
        simp at h
    · have hd0 : 0 ≤ n.duration := hd n (by simp)
      have := ih (t + n.duration) (fun x hx => hd x (by simp [hx])) v h
      linarith

/-- The scheduled voices appear in note order with non-decreasing start
times. -/
lemma scheduleAll_pairwise :
    ∀ (notes : List JsNote) (t : ℚ), (∀ n ∈ notes, 0 ≤ n.duration) →
      (scheduleAll t notes).Pairwise (fun v w => v.startTime ≤ w.startTime) := by
  intro notes
  induction notes with
  | nil =>
    intro t hd
    simp [scheduleAll]
  | cons n rest ih =>
    intro t hd
    rw [scheduleAll]
    have hd0 : 0 ≤ n.duration := hd n (by simp)
    have hdrest : ∀ x ∈ rest, 0 ≤ x.duration := fun x hx => hd x (by simp [hx])
    have hrec := ih (t + n.duration) hdrest
    by_cases hc : n.is_rest = false ∧ 0 < n.frequency
    · rw [if_pos hc]
      refine List.Pairwise.cons ?_ hrec
      intro w hw
      have := scheduleAll_start_ge rest (t + n.duration) hdrest w hw
      dsimp
      linarith
    · rw [if_neg hc]
      simpa using hrec

/-- Claim C9: when a start succeeds, each playable note i owns a voice
starting at now + (sum of the durations of notes 0..i-1, rests included),
and the scheduled voices, taken in note order, have non-decreasing
absolute start times. -/
theorem claim_C9_offsets_monotone (st : EngineState) (now : ℚ) (notes : List JsNote)
    (st2 : EngineState) (hpos : ∀ n ∈ notes, 0 < n.duration)
    (hok : playNoteSequence st true now notes = Except.ok st2) :
    (∀ i (hi : i < notes.length),
        (notes.get ⟨i, hi⟩).is_rest = false →
        0 < (notes.get ⟨i, hi⟩).frequency →
        Voice.mk (notes.get ⟨i, hi⟩).frequency (notes.get ⟨i, hi⟩).duration
            (now + prefixDur notes i)
          ∈ st2.scheduledNotes)
    ∧ st2.scheduledNotes.Pairwise (fun v w => v.startTime ≤ w.startTime) := by
  rw [playNoteSequence_ok st now notes] at hok
  have hst : st2 = ⟨true, true, scheduleAll now notes⟩ := (Except.ok.inj hok).symm
  rw [hst]
  constructor
  · intro i hi hr hf
    exact scheduleAll_mem notes now i hi hr hf
  · exact scheduleAll_pairwise notes now (fun n hn => le_of_lt (hpos n hn))

/-- The two-note sequence used to witness claim C9. -/
def exC9Notes : List JsNote := [⟨440, 1/2, none, false⟩, ⟨330, 1/4, none, false⟩]

/-- Claim C9 witness: starting an idle engine at time 2 on two notes of
durations 0.5 and 0.25 schedules the first voice at 2 and keeps start
times non-decreasing. -/
theorem claim_C9_offsets_monotone_witness :
    (∀ n ∈ exC9Notes, 0 < n.duration)
    ∧ playNoteSequence ⟨true, false, []⟩ true 2 exC9Notes
        = Except.ok ⟨true, true, [⟨440, 1/2, 2⟩, ⟨330, 1/4, 2 + 1/2⟩]⟩
    ∧ Voice.mk 440 (1/2) (2 + prefixDur exC9Notes 0)
        ∈ (EngineState.mk true true [⟨440, 1/2, 2⟩, ⟨330, 1/4, 2 + 1/2⟩]).scheduledNotes
    ∧ (EngineState.mk true true
        [⟨440, 1/2, 2⟩, ⟨330, 1/4, 2 + 1/2⟩]).scheduledNotes.Pairwise
          (fun v w => v.startTime ≤ w.startTime) := by
  have hd : ∀ n ∈ exC9Notes, 0 < n.duration := by
    intro n hn
    simp only [exC9Notes, List.mem_cons, List.not_mem_nil, or_false] at hn
    rcases hn with h | h <;> rw [h] <;> norm_num
  have hok : playNoteSequence ⟨true, false, []⟩ true 2 exC9Notes
      = Except.ok ⟨true, true, [⟨440, 1/2, 2⟩, ⟨330, 1/4, 2 + 1/2⟩]⟩ := by
    norm_num [playNoteSequence, stopAllNotes, scheduleAll, exC9Notes]
  obtain ⟨hmem, hpw⟩ :=
    claim_C9_offsets_monotone ⟨true, false, []⟩ 2 exC9Notes _ hd hok
  refine ⟨hd, hok, ?_, hpw⟩
  have := hmem 0 (by norm_num [exC9Notes]) rfl (by norm_num [exC9Notes])
  simpa [exC9Notes] using this
